import Mathlib

/-!
Shallow embedding of `src/app.py`, a minimal Flask service instrumented for
tracing, metrics and structured logging.  Pure Python functions become Lean
functions; the stateful pieces (the `functools.lru_cache` memo table and the
telemetry sinks mutated by the middleware) become explicit state passing.
Machine floats that only ever hold exactly representable values in the claims
under study are modelled as rationals; Python's unbounded `int` is `Int`.
-/

namespace ObsLab

/-! ## Python numeric and string helpers -/

/-- Accumulate a list of decimal digit characters into a natural number
(most significant first), as Python's string-to-int conversion does once the
characters are known to be digits. -/
def natOfDigits (l : List Char) : Nat :=
  l.foldl (fun n c => 10 * n + (c.toNat - 48)) 0

/-- Parse a nonempty all-digit character list, failing otherwise. -/
def digitsToNat (l : List Char) : Option Nat :=
  if l ≠ [] ∧ l.all (fun c => c.isDigit) then some (natOfDigits l) else none

/-- Models Python `int(s)` on the fragment the app exercises: an optional
sign followed by decimal digits; any other string raises `ValueError`,
modelled as `none`. -/
def pyParseInt (s : String) : Option Int :=
  match s.data with
  | '-' :: rest => (digitsToNat rest).map (fun n => -(n : Int))
  | '+' :: rest => (digitsToNat rest).map (fun n => (n : Int))
  | l => (digitsToNat l).map (fun n => (n : Int))

/-- Parse an unsigned decimal literal `digits[.digits]` into a rational. -/
def parseDecimal (l : List Char) : Option ℚ :=
  let intPart := l.takeWhile (fun c => c ≠ '.')
  let rest := l.dropWhile (fun c => c ≠ '.')
  match rest with
  | [] => (digitsToNat intPart).map (fun n => (n : ℚ))
  | '.' :: frac =>
    if intPart.all (fun c => c.isDigit) ∧ frac.all (fun c => c.isDigit) ∧
        (intPart ≠ [] ∨ frac ≠ []) then
      some ((natOfDigits intPart : ℚ) + (natOfDigits frac : ℚ) / (10 : ℚ) ^ frac.length)
    else none
  | _ => none

/-- Models Python `float(s)` on the fragment the app exercises: an optional
sign followed by a decimal literal; any other string raises `ValueError`,
modelled as `none`.  Exact rational semantics are used; every float literal
the claims touch (`0`, `1`, `0.2`) is compared only against draws where the
rounding of the binary representation is irrelevant to the stated property. -/
def pyParseFloat (s : String) : Option ℚ :=
  match s.data with
  | '-' :: rest => (parseDecimal rest).map (fun q => -q)
  | '+' :: rest => parseDecimal rest
  | l => parseDecimal l

/-- Models Python `int(f)` applied to a float: truncation toward zero
(floor for nonnegative values, ceiling for negative ones). -/
def pyIntOfRat (q : ℚ) : Int :=
  if 0 ≤ q then ⌊q⌋ else ⌈q⌉

/-- Models Python `hex(n)` for the nonnegative trace identifiers the app
renders: the prefix `0x` followed by lowercase hexadecimal digits. -/
def pyHex (n : Nat) : String :=
  "0x" ++ String.mk (Nat.toDigits 16 n)

/-! ## Memoized compute (`expensive_compute_cached` / `expensive_compute_uncached`)

`@lru_cache(maxsize=256)` keeps a bounded memo table with least-recently-used
eviction.  The table is embedded as an association list ordered from most
recently used (head) to least recently used (last).  A call that hits moves
the key to the front; a miss computes `x * x`, inserts at the front and drops
the last entry once the length would exceed the capacity. -/

/-- The memo table of the cached compute variant: association list from key
to stored result, most recently used first. -/
abbrev Cache := List (Int × Int)

/-- The `maxsize=256` bound of the `lru_cache` decorator. -/
def CACHE_MAXSIZE : Nat := 256

/-- Keys currently present in the memo table, most recently used first. -/
def cacheKeys (c : Cache) : List Int :=
  c.map (fun p => p.1)

/-- Lookup of a key in the memo table. -/
def cacheLookup (x : Int) (c : Cache) : Option Int :=
  (c.find? (fun p => p.1 == x)).map (fun p => p.2)

/-- Mark a present key as most recently used, leaving the entry set alone. -/
def moveToFront (x : Int) (c : Cache) : Cache :=
  match cacheLookup x c with
  | some v => (x, v) :: c.filter (fun p => p.1 ≠ x)
  | none => c

/-- Insert a fresh entry as most recently used; if the table would exceed
`CACHE_MAXSIZE`, the trailing (least recently used) entry is dropped. -/
def cacheInsert (x v : Int) (c : Cache) : Cache :=
  ((x, v) :: c).take CACHE_MAXSIZE

/-- Outcome of one call to the cached compute variant: the returned value,
the memo table afterwards, and whether the 800 ms recomputation ran
(`missed = true` exactly on a cache miss). -/
structure ComputeResult where
  value : Int
  cache : Cache
  missed : Bool
  deriving Repr, DecidableEq

/-- Model of `expensive_compute_cached(x)`: on a hit return the stored result (no
delay) and mark `x` most recently used; on a miss sleep 800 ms, compute
`x * x`, insert it (evicting the least recently used entry at capacity). -/
def expensive_compute_cached (x : Int) (c : Cache) : ComputeResult :=
  match cacheLookup x c with
  | some v => ⟨v, moveToFront x c, false⟩
  | none => ⟨x * x, cacheInsert x (x * x) c, true⟩

/-- Model of `expensive_compute_uncached(x)`: sleep 800 ms, return `x * x`; no state. -/
def expensive_compute_uncached (x : Int) : Int :=
  x * x

/-- Run the cached compute variant over a list of keys in order, keeping
only the evolving memo table. -/
def runKeys (ks : List Int) (c : Cache) : Cache :=
  ks.foldl (fun acc k => (expensive_compute_cached k acc).cache) c

/-- Every stored result is the square of its key — the invariant the memo
table satisfies in every reachable state, since only return values of the
wrapped function are ever inserted. -/
def squareInv (c : Cache) : Prop :=
  ∀ p ∈ c, p.2 = p.1 * p.1

instance (c : Cache) : Decidable (squareInv c) := by
  unfold squareInv; infer_instance

/-! ## Responses and route handlers -/

/-- JSON payloads the app can produce. -/
inductive Body where
  /-- Payload `{ok, service, env}` from `/health`. -/
  | healthBody (service env : String)
  /-- Payload `{message: "hello, datadog"}` from `/hello`. -/
  | helloBody
  /-- Payload `{result, cache}` from `/slow`. -/
  | slowBody (result : Int) (cacheFlag : Bool)
  /-- Payload `{error: "intentional failure"}` from `/error`. -/
  | failureBody
  /-- Payload `{ok: true}` from `/error`. -/
  | okBody
  /-- Flask's internal server error page for an unhandled exception. -/
  | internalError
  deriving Repr, DecidableEq

/-- An HTTP response: status code and JSON body. -/
structure Response where
  status : Nat
  body : Body
  deriving Repr, DecidableEq

/-- Model of `hello()`: parse `delay_ms` (default `"0"`), sleep that many
milliseconds when positive, answer 200.  The second component is the seconds
slept; a `ValueError` from `int()` propagates as `.error`. -/
def hello (delayParam : Option String) : Except String (Response × ℚ) :=
  match pyParseInt (delayParam.getD "0") with
  | none => .error "ValueError"
  | some d => .ok (⟨200, .helloBody⟩, if 0 < d then (d : ℚ) / 1000 else 0)

/-- The `/slow` cache flag: `request.args.get("cache", "0") == "1"`. -/
def cacheFlagOf (cacheParam : Option String) : Bool :=
  cacheParam.getD "0" == "1"

/-- Outcome of the `/slow` handler: the response, the names of the tracing
spans opened, and the memo table afterwards. -/
structure SlowOutcome where
  resp : Response
  spans : List String
  cache : Cache
  deriving Repr, DecidableEq

/-- Model of `slow()`: read the cache flag, parse `x` (default `"7"`), open the
`"slow_work"` span, compute through the cached or uncached path, answer 200
with `{result, cache}`.  A `ValueError` from `int()` propagates. -/
def slow (xParam cacheParam : Option String) (c : Cache) : Except String SlowOutcome :=
  let cache_on := cacheFlagOf cacheParam
  match pyParseInt (xParam.getD "7") with
  | none => .error "ValueError"
  | some x =>
    if cache_on then
      let r := expensive_compute_cached x c
      .ok ⟨⟨200, .slowBody r.value cache_on⟩, ["slow_work"], r.cache⟩
    else
      .ok ⟨⟨200, .slowBody (expensive_compute_uncached x) cache_on⟩, ["slow_work"], c⟩

/-- Model of `sometimes_errors()`: parse `rate` (default `"0.2"`), draw
`random.random()` — a uniform value in `[0, 1)`, supplied here as the
argument `draw` — and answer 500 `{error}` when the draw is strictly below
the rate, else 200 `{ok}`.  A `ValueError` from `float()` propagates. -/
def sometimes_errors (rateParam : Option String) (draw : ℚ) : Except String Response :=
  match pyParseFloat (rateParam.getD "0.2") with
  | none => .error "ValueError"
  | some rate =>
    if draw < rate then .ok ⟨500, .failureBody⟩ else .ok ⟨200, .okBody⟩

/-- Model of `health()`: fixed 200 payload. -/
def health (service env : String) : Response :=
  ⟨200, .healthBody service env⟩

/-! ## Instrumentation middleware -/

/-- Configuration read once at startup from the environment. -/
structure Config where
  service : String
  env : String
  deriving Repr, DecidableEq

/-- Request context: path, method and the clock reading stored by
`_start_timer` into `request._start`. -/
structure ReqCtx where
  path : String
  method : String
  startTime : ℚ
  deriving Repr, DecidableEq

/-- Model of `_start_timer()`: store the current wall-clock reading (`time.time()`,
in seconds) on the request.  The clock is an input: nothing in the code
constrains successive readings. -/
def _start_timer (now : ℚ) : ℚ :=
  now

/-- Model of `int((time.time() - request._start) * 1000)`: elapsed wall-clock time in
milliseconds, truncated toward zero by Python `int()`. -/
def after_dur_ms (start now : ℚ) : Int :=
  pyIntOfRat ((now - start) * 1000)

/-- One `req_counter.add(1, tags)` event. -/
structure CounterEvent where
  path : String
  method : String
  status : String
  deriving Repr, DecidableEq

/-- One `latency_hist.record(dur_ms, tags)` event. -/
structure HistEvent where
  path : String
  method : String
  value : Int
  deriving Repr, DecidableEq

/-- One structured log record, as assembled by `log_json("request", ...)`. -/
structure LogRecord where
  event : String
  service : String
  env : String
  path : String
  method : String
  status : Nat
  latency_ms : Int
  trace_id : String
  deriving Repr, DecidableEq

/-- The telemetry sinks mutated by the middleware, plus a count of how many
times the `_after` completion hook has been entered. -/
structure Telemetry where
  counters : List CounterEvent
  histograms : List HistEvent
  logs : List LogRecord
  afterRuns : Nat
  deriving Repr, DecidableEq

/-- Which telemetry steps of the completion logic raise an exception on this
request.  Each flag models the corresponding call in the `try` block of
`_after` throwing (e.g. an export error). -/
structure FailureOracle where
  counterFails : Bool
  histFails : Bool
  traceFails : Bool
  logFails : Bool
  deriving Repr, DecidableEq

/-- An oracle under which every telemetry step succeeds. -/
def noFailures : FailureOracle :=
  ⟨false, false, false, false⟩

/-- The `try` block of `_after`: compute the latency, add the counter event,
record the histogram, read the current trace id and emit one log record — in
that order, stopping at the first step that raises.  Effects performed
before the failing step persist, exactly as in Python. -/
def tryCompletion (cfg : Config) (o : FailureOracle) (req : ReqCtx) (resp : Response)
    (now : ℚ) (traceId : Nat) (t : Telemetry) : Telemetry :=
  let dur := after_dur_ms req.startTime now
  if o.counterFails then t else
  let t1 := { t with counters := t.counters ++ [⟨req.path, req.method, toString resp.status⟩] }
  if o.histFails then t1 else
  let t2 := { t1 with histograms := t1.histograms ++ [⟨req.path, req.method, dur⟩] }
  if o.traceFails then t2 else
  if o.logFails then t2 else
  { t2 with logs := t2.logs ++
      [⟨"request", cfg.service, cfg.env, req.path, req.method, resp.status, dur, pyHex traceId⟩] }

/-- Model of `_after(resp)`: run the completion logic inside `try ... except
Exception: pass` and return the response unchanged.  Entering the hook is
counted before the `try` block to record that the hook ran. -/
def _after (cfg : Config) (o : FailureOracle) (req : ReqCtx) (now : ℚ) (traceId : Nat)
    (resp : Response) (t : Telemetry) : Response × Telemetry :=
  (resp, tryCompletion cfg o req resp now traceId { t with afterRuns := t.afterRuns + 1 })

/-- Modelled from the spec: Flask's request dispatch, which is not part of
`src/`.  Per the contract sentence — "for every request, wrap handler
execution such that, regardless of success or failure of the handler, a
completion step runs exactly once" — an unhandled handler exception is
turned into a 500 response and the `after_request` hook still runs once on
whichever response is produced. -/
def full_dispatch (cfg : Config) (o : FailureOracle) (req : ReqCtx) (now : ℚ) (traceId : Nat)
    (handlerOutcome : Except String Response) (t : Telemetry) : Response × Telemetry :=
  let resp :=
    match handlerOutcome with
    | .ok r => r
    | .error _ => ⟨500, .internalError⟩
  _after cfg o req now traceId resp t

/-! ## Concrete inputs used to instantiate the theorems -/

/-- A full memo table of 256 entries whose keys are `1, …, 256`. -/
def fullCache : Cache :=
  (List.range CACHE_MAXSIZE).map
    (fun i : Nat => ((i : Int) + 1, ((i : Int) + 1) * ((i : Int) + 1)))

/-- 257 distinct keys `0, …, 256`. -/
def keys257 : List Int :=
  (List.range 257).map (fun n : Nat => (n : Int))

/-- A sample configuration. -/
def cfgW : Config :=
  ⟨"observability-lab", "dev"⟩

/-- A sample request context started at wall-clock reading 0. -/
def reqW : ReqCtx :=
  ⟨"/slow", "GET", 0⟩

/-- Empty telemetry sinks. -/
def telemW : Telemetry :=
  ⟨[], [], [], 0⟩

/-- An oracle under which the counter-increment step raises. -/
def failCounterOracle : FailureOracle :=
  ⟨true, false, false, false⟩

/-! ## Helper lemmas about the memo table -/

theorem cacheLookup_eq_none_iff (x : Int) (c : Cache) :
    cacheLookup x c = none ↔ x ∉ cacheKeys c := by
  simp [cacheLookup, Option.map_eq_none', List.find?_eq_none, cacheKeys]
  constructor
  · intro h p hp
    exact h x p hp rfl
  · intro h a b hab hax
    subst hax
    exact h b hab

theorem squareInv_lookup {c : Cache} {x v : Int} (h : squareInv c)
    (hv : cacheLookup x c = some v) : v = x * x := by
  unfold cacheLookup at hv
  obtain ⟨p, hfind, hv⟩ := Option.map_eq_some'.mp hv
  have hmem : p ∈ c := List.mem_of_find?_eq_some hfind
  have hx : p.1 = x := by
    have := List.find?_some hfind
    simpa using this
  subst hv
  rw [h p hmem, hx]

theorem squareInv_cached {c : Cache} (x : Int) (h : squareInv c) :
    squareInv (expensive_compute_cached x c).cache := by
  unfold expensive_compute_cached
  cases hl : cacheLookup x c with
  | some v =>
    intro p hp
    unfold moveToFront at hp
    rw [hl] at hp
    rcases List.mem_cons.mp hp with hpe | hpf
    · subst hpe
      exact squareInv_lookup h hl
    · exact h p (List.mem_of_mem_filter hpf)
  | none =>
    intro p hp
    unfold cacheInsert at hp
    have hp' := List.mem_of_mem_take hp
    rcases List.mem_cons.mp hp' with hpe | hpc
    · subst hpe; rfl
    · exact h p hpc

theorem cached_value_eq {c : Cache} (x : Int) (h : squareInv c) :
    (expensive_compute_cached x c).value = x * x := by
  unfold expensive_compute_cached
  cases hl : cacheLookup x c with
  | some v => exact squareInv_lookup h hl
  | none => rfl

theorem cached_lookup_self {c : Cache} (x : Int) (h : squareInv c) :
    cacheLookup x (expensive_compute_cached x c).cache = some (x * x) := by
  unfold expensive_compute_cached
  cases hl : cacheLookup x c with
  | some v =>
    have hv := squareInv_lookup h hl
    unfold moveToFront
    rw [hl]
    simp [cacheLookup, List.find?, hv]
  | none =>
    unfold cacheInsert CACHE_MAXSIZE
    simp [cacheLookup, List.find?]

theorem mem_keys_of_lookup_some {c : Cache} {x v : Int}
    (hv : cacheLookup x c = some v) : x ∈ cacheKeys c := by
  by_contra hx
  rw [← cacheLookup_eq_none_iff] at hx
  rw [hx] at hv
  exact Option.noConfusion hv

theorem cached_cache_of_not_mem {c : Cache} {x : Int} (hx : x ∉ cacheKeys c) :
    (expensive_compute_cached x c).cache = ((x, x * x) :: c).take CACHE_MAXSIZE := by
  unfold expensive_compute_cached
  rw [(cacheLookup_eq_none_iff x c).mpr hx]
  rfl

theorem cached_length_le {c : Cache} (x : Int) (hc : c.length ≤ CACHE_MAXSIZE) :
    (expensive_compute_cached x c).cache.length ≤ CACHE_MAXSIZE := by
  unfold expensive_compute_cached
  cases hl : cacheLookup x c with
  | some v =>
    unfold moveToFront
    rw [hl]
    simp only [List.length_cons]
    have hlt : (c.filter (fun p => p.1 ≠ x)).length < c.length := by
      obtain ⟨p, hfind, _⟩ := Option.map_eq_some'.mp hl
      have hmem : p ∈ c := List.mem_of_find?_eq_some hfind
      have hpx : p.1 = x := by
        have := List.find?_some hfind
        simpa using this
      refine List.length_filter_lt_length_iff_exists.mpr ⟨p, hmem, ?_⟩
      simp [hpx]
    omega
  | none =>
    unfold cacheInsert
    simp only [List.length_take]
    exact Nat.min_le_left _ _

theorem take_append_take {α : Type} (A B : List α) (n : Nat) :
    (A ++ B.take n).take n = (A ++ B).take n := by
  rw [List.take_append_eq_append_take, List.take_append_eq_append_take,
    List.take_take, Nat.min_eq_left (Nat.sub_le n A.length)]

theorem runKeys_eq (ks : List Int) (c : Cache) (hnd : ks.Nodup)
    (hdisj : ∀ k ∈ ks, k ∉ cacheKeys c) (hlen : c.length ≤ CACHE_MAXSIZE) :
    runKeys ks c = (ks.reverse.map (fun k => (k, k * k)) ++ c).take CACHE_MAXSIZE := by
  induction ks generalizing c with
  | nil =>
    simp only [runKeys, List.foldl_nil, List.reverse_nil, List.map_nil, List.nil_append]
    exact (List.take_of_length_le hlen).symm
  | cons k ks ih =>
    have hk : k ∉ cacheKeys c := hdisj k (List.mem_cons_self k ks)
    have hstep : runKeys (k :: ks) c =
        runKeys ks (((k, k * k) :: c).take CACHE_MAXSIZE) := by
      simp only [runKeys, List.foldl_cons]
      rw [cached_cache_of_not_mem hk]
    rw [hstep, ih _ (List.Nodup.of_cons hnd) ?_ ?_]
    · rw [take_append_take, List.reverse_cons, List.map_append, List.append_assoc]
      rfl
    · intro j hj hjmem
      have hjk : j ≠ k := by
        intro he
        subst he
        exact (List.nodup_cons.mp hnd).1 hj
      have : j ∈ cacheKeys ((k, k * k) :: c) := by
        unfold cacheKeys at hjmem ⊢
        exact List.mem_of_mem_take (by simpa [List.map_take] using hjmem)
      have hj2 : j = k ∨ ∃ v, (j, v) ∈ c := by simpa [cacheKeys] using this
      rcases hj2 with h1 | ⟨v, h2⟩
      · exact hjk h1
      · refine hdisj j (List.mem_cons_of_mem k hj) ?_
        unfold cacheKeys
        exact List.mem_map.mpr ⟨(j, v), h2, rfl⟩
    · simp only [List.length_take]
      exact Nat.min_le_left _ _

theorem mem_keys_moveToFront {c : Cache} {x v : Int}
    (hl : cacheLookup x c = some v) (k : Int) :
    k ∈ cacheKeys (moveToFront x c) ↔ k ∈ cacheKeys c := by
  unfold moveToFront
  rw [hl]
  have hx : x ∈ cacheKeys c := mem_keys_of_lookup_some hl
  simp only [cacheKeys, List.map_cons, List.mem_cons] at hx ⊢
  constructor
  · rintro (he | hmem)
    · subst he
      exact hx
    · obtain ⟨p, hp, hpk⟩ := List.mem_map.mp hmem
      exact List.mem_map.mpr ⟨p, List.mem_of_mem_filter hp, hpk⟩
  · intro hmem
    by_cases hk : k = x
    · left
      exact hk
    · right
      obtain ⟨p, hp, hpk⟩ := List.mem_map.mp hmem
      refine List.mem_map.mpr ⟨p, List.mem_filter.mpr ⟨hp, ?_⟩, hpk⟩
      simp [hpk, hk]

/-! ## Claim theorems -/

/-- C2: for every integer `x`, both compute variants return `x * x`:
`expensive_compute_uncached` is the pure map `x ↦ x * x` (no state), and
`expensive_compute_cached` returns `x * x` on a hit (the stored value, by
the table invariant) as well as on a miss, and keeps the invariant that
every stored value is the square of its key. -/
theorem C2_compute_square (x : Int) (c : Cache) (h : squareInv c) :
    expensive_compute_uncached x = x * x ∧
    (expensive_compute_cached x c).value = x * x ∧
    squareInv (expensive_compute_cached x c).cache :=
  ⟨rfl, cached_value_eq x h, squareInv_cached x h⟩

theorem C2_compute_square_witness :
    expensive_compute_uncached 3 = 3 * 3 ∧
    (expensive_compute_cached 3 ([] : Cache)).value = 3 * 3 ∧
    squareInv (expensive_compute_cached 3 ([] : Cache)).cache :=
  C2_compute_square 3 [] (by decide)

/-- C5: calling the cached compute twice in sequence returns the same value
both times (`x * x`); the second call is a hit — the recomputation flag is
`false` — and its only effect on the memo table is marking `x` most
recently used, leaving the key set unchanged. -/
theorem C5_cached_twice (x : Int) (c : Cache) (h : squareInv c) :
    (expensive_compute_cached x (expensive_compute_cached x c).cache).value
      = (expensive_compute_cached x c).value ∧
    (expensive_compute_cached x c).value = x * x ∧
    (expensive_compute_cached x (expensive_compute_cached x c).cache).missed = false ∧
    (expensive_compute_cached x (expensive_compute_cached x c).cache).cache
      = moveToFront x (expensive_compute_cached x c).cache ∧
    ∀ k, k ∈ cacheKeys (expensive_compute_cached x (expensive_compute_cached x c).cache).cache
      ↔ k ∈ cacheKeys (expensive_compute_cached x c).cache := by
  have hl := cached_lookup_self x h
  have hv := cached_value_eq x h
  set c1 := (expensive_compute_cached x c).cache with hc1
  have h2 : expensive_compute_cached x c1 = ⟨x * x, moveToFront x c1, false⟩ := by
    unfold expensive_compute_cached
    rw [hl]
  rw [h2, hv]
  exact ⟨rfl, rfl, rfl, rfl, fun k => mem_keys_moveToFront hl k⟩

theorem C5_cached_twice_witness :
    (expensive_compute_cached 4 (expensive_compute_cached 4 ([] : Cache)).cache).missed = false ∧
    (expensive_compute_cached 4 (expensive_compute_cached 4 ([] : Cache)).cache).value
      = (expensive_compute_cached 4 ([] : Cache)).value :=
  ⟨(C5_cached_twice 4 [] (by decide)).2.2.1, (C5_cached_twice 4 [] (by decide)).1⟩

/-- C1: the memo table never exceeds `CACHE_MAXSIZE = 256` entries — any
call on a table within the bound stays within it; an insert into a full
table of which the key is not a member evicts exactly the trailing (least
recently used) entry; and inserting 257 distinct keys starting from the
empty table leaves exactly the 256 most recent keys, the first (least
recently used) key being the only one evicted. -/
theorem C1_lru_bound (x : Int) (c : Cache) (hc : c.length ≤ CACHE_MAXSIZE)
    (cfull : Cache) (hfull : cfull.length = CACHE_MAXSIZE) (hx : x ∉ cacheKeys cfull)
    (ks : List Int) (hlen : ks.length = 257) (hnd : ks.Nodup) :
    (expensive_compute_cached x c).cache.length ≤ CACHE_MAXSIZE ∧
    (expensive_compute_cached x cfull).cache = (x, x * x) :: cfull.dropLast ∧
    cacheKeys (runKeys ks []) = ks.tail.reverse ∧
    (runKeys ks []).length = CACHE_MAXSIZE ∧
    ∀ h, ks.head? = some h → h ∉ cacheKeys (runKeys ks []) := by
  have hrun : runKeys ks [] = (ks.reverse.map (fun k => (k, k * k))).take CACHE_MAXSIZE := by
    rw [runKeys_eq ks [] hnd (by simp [cacheKeys]) (by simp [CACHE_MAXSIZE])]
    simp
  have hkeys : cacheKeys (runKeys ks []) = ks.reverse.take CACHE_MAXSIZE := by
    rw [hrun]
    unfold cacheKeys
    rw [← List.map_take, List.map_map]
    have hidm : ((fun p : Int × Int => p.1) ∘ fun k : Int => (k, k * k)) = id := rfl
    rw [hidm, List.map_id]
  obtain ⟨a, t, rfl⟩ : ∃ a t, ks = a :: t := by
    cases ks with
    | nil => simp at hlen
    | cons a t => exact ⟨a, t, rfl⟩
  have ht : t.length = 256 := by
    simpa using hlen
  have htrev : t.reverse.length = CACHE_MAXSIZE := by
    simp [ht, CACHE_MAXSIZE]
  have hkeys' : cacheKeys (runKeys (a :: t) []) = t.reverse := by
    rw [hkeys, List.reverse_cons, List.take_append_eq_append_take,
      List.take_of_length_le (le_of_eq htrev), htrev]
    simp
  refine ⟨cached_length_le x hc, ?_, ?_, ?_, ?_⟩
  · rw [cached_cache_of_not_mem hx]
    have h256 : CACHE_MAXSIZE = 255 + 1 := rfl
    rw [h256, List.take_succ_cons, List.dropLast_eq_take, hfull]
    rfl
  · simpa using hkeys'
  · have := congrArg List.length hkeys'
    simpa [cacheKeys, htrev] using this
  · intro h hh
    have ha : a = h := by
      simpa using hh
    subst ha
    rw [hkeys']
    intro hmem
    exact (List.nodup_cons.mp hnd).1 (List.mem_reverse.mp hmem)

theorem C1_lru_bound_witness :
    (expensive_compute_cached 0 ([] : Cache)).cache.length ≤ CACHE_MAXSIZE ∧
    (expensive_compute_cached 0 fullCache).cache = (0, 0 * 0) :: fullCache.dropLast ∧
    cacheKeys (runKeys keys257 []) = keys257.tail.reverse ∧
    (runKeys keys257 []).length = CACHE_MAXSIZE := by
  have h := C1_lru_bound 0 [] (by simp [CACHE_MAXSIZE]) fullCache
    (by
      unfold fullCache
      rw [List.length_map, List.length_range])
    (by
      unfold fullCache cacheKeys
      rw [List.map_map]
      intro hmem
      obtain ⟨i, hi, he⟩ := List.mem_map.mp hmem
      simp only [Function.comp] at he
      omega)
    keys257 (by
      unfold keys257
      rw [List.length_map, List.length_range]) (by
      unfold keys257
      exact List.Nodup.map (fun a b hab => by exact_mod_cast hab) (List.nodup_range 257))
  exact ⟨h.1, h.2.1, h.2.2.1, h.2.2.2.1⟩

/-- C3: whatever subset of the completion steps raises (any failure
oracle), `_after` returns the handler's response unmodified — same status
code and body — so the middleware never causes a request to fail; through
the full dispatch a successful handler's response reaches the caller
unchanged. -/
theorem C3_after_swallows (cfg : Config) (o : FailureOracle) (req : ReqCtx) (now : ℚ)
    (tid : Nat) (resp : Response) (t : Telemetry) :
    (_after cfg o req now tid resp t).1 = resp ∧
    (_after cfg o req now tid resp t).1.status = resp.status ∧
    (_after cfg o req now tid resp t).1.body = resp.body ∧
    (full_dispatch cfg o req now tid (.ok resp) t).1 = resp :=
  ⟨rfl, rfl, rfl, rfl⟩

/-- C4: the `/error` handler returns 500 `{error: "intentional failure"}`
exactly when the uniform draw (in `[0, 1)`) is strictly below the parsed
rate, and 200 `{ok: true}` otherwise; `rate=0` always yields 200, `rate=1`
always yields 500, and the absent parameter defaults to rate `0.2 = 1/5`. -/
theorem C4_error_endpoint (draw : ℚ) (h0 : 0 ≤ draw) (h1 : draw < 1)
    (rp : String) (rate : ℚ) (hp : pyParseFloat rp = some rate) :
    (sometimes_errors (some rp) draw = .ok ⟨500, .failureBody⟩ ↔ draw < rate) ∧
    (sometimes_errors (some rp) draw = .ok ⟨200, .okBody⟩ ↔ ¬ draw < rate) ∧
    sometimes_errors (some "0") draw = .ok ⟨200, .okBody⟩ ∧
    sometimes_errors (some "1") draw = .ok ⟨500, .failureBody⟩ ∧
    (sometimes_errors none draw = .ok ⟨500, .failureBody⟩ ↔ draw < 1 / 5) := by
  have hgen : ∀ (p : Option String) (r : ℚ), pyParseFloat (p.getD "0.2") = some r →
      sometimes_errors p draw =
        if draw < r then .ok ⟨500, .failureBody⟩ else .ok ⟨200, .okBody⟩ := by
    intro p r hr
    unfold sometimes_errors
    rw [hr]
  have e0 : pyParseFloat "0" = some 0 := by
    simp [pyParseFloat, parseDecimal, digitsToNat, natOfDigits]
  have e1 : pyParseFloat "1" = some 1 := by
    simp [pyParseFloat, parseDecimal, digitsToNat, natOfDigits]
  have e02 : pyParseFloat "0.2" = some (1 / 5) := by
    simp [pyParseFloat, parseDecimal, digitsToNat, natOfDigits]
    norm_num
  refine ⟨?_, ?_, ?_, ?_, ?_⟩
  · rw [hgen (some rp) rate hp]
    by_cases hlt : draw < rate
    · simp [hlt]
    · simp [hlt]
  · rw [hgen (some rp) rate hp]
    by_cases hlt : draw < rate
    · simp [hlt]
    · simp [hlt]
  · rw [hgen (some "0") 0 e0, if_neg (not_lt.mpr h0)]
  · rw [hgen (some "1") 1 e1, if_pos h1]
  · rw [hgen none (1 / 5) e02]
    by_cases hlt : draw < 1 / 5
    · simp [hlt]
    · simp [hlt]

theorem C4_error_endpoint_witness :
    sometimes_errors (some "0") (1 / 2) = .ok ⟨200, .okBody⟩ ∧
    sometimes_errors (some "1") (1 / 2) = .ok ⟨500, .failureBody⟩ :=
  ⟨(C4_error_endpoint (1 / 2) (by norm_num) (by norm_num) "1" 1
      (by simp [pyParseFloat, parseDecimal, digitsToNat, natOfDigits])).2.2.1,
   (C4_error_endpoint (1 / 2) (by norm_num) (by norm_num) "1" 1
      (by simp [pyParseFloat, parseDecimal, digitsToNat, natOfDigits])).2.2.2.1⟩

/-- C7: the `/slow` handler parses `x` (default `"7"`), opens exactly the
tracing span `"slow_work"`, computes through the cached path when the cache
flag is set and the uncached path otherwise (the memo table is touched only
in the former case), and answers 200 with body `{result: x*x, cache: flag}`. -/
theorem C7_slow_endpoint (xp cp : Option String) (c : Cache) (hinv : squareInv c)
    (x : Int) (hx : pyParseInt (xp.getD "7") = some x) :
    slow xp cp c = .ok ⟨⟨200, .slowBody (x * x) (cacheFlagOf cp)⟩, ["slow_work"],
      if cacheFlagOf cp then (expensive_compute_cached x c).cache else c⟩ ∧
    pyParseInt ((none : Option String).getD "7") = some 7 ∧
    cacheFlagOf none = false := by
  refine ⟨?_, by simp [pyParseInt, digitsToNat, natOfDigits], rfl⟩
  by_cases hcf : cacheFlagOf cp
  · simp [slow, hx, hcf, cached_value_eq x hinv]
  · simp [slow, hx, hcf, expensive_compute_uncached]

theorem C7_slow_endpoint_witness :
    slow (some "5") (some "1") ([] : Cache)
      = .ok ⟨⟨200, .slowBody (5 * 5) (cacheFlagOf (some "1"))⟩, ["slow_work"],
        if cacheFlagOf (some "1") then (expensive_compute_cached 5 ([] : Cache)).cache
        else []⟩ :=
  (C7_slow_endpoint (some "5") (some "1") [] (by decide) 5
    (by simp [pyParseInt, digitsToNat, natOfDigits])).1

/-- C9: every query parameter value that is not parseable as the expected
number — any non-numeric `delay_ms` on `/hello`, any non-numeric `x` on
`/slow`, any non-numeric `rate` on `/error` — makes the handler raise the
`int()`/`float()` conversion error, and the dispatch turns any unhandled
handler exception into a 500 response (not a 400, and not the default
value). -/
theorem C9_nonnumeric_params (sd sx sr : String)
    (hd : pyParseInt sd = none) (hx : pyParseInt sx = none)
    (hr : pyParseFloat sr = none)
    (cp : Option String) (c : Cache) (draw : ℚ)
    (cfg : Config) (o : FailureOracle) (req : ReqCtx) (now : ℚ) (tid : Nat)
    (t : Telemetry) (e : String) :
    hello (some sd) = .error "ValueError" ∧
    slow (some sx) cp c = .error "ValueError" ∧
    sometimes_errors (some sr) draw = .error "ValueError" ∧
    (full_dispatch cfg o req now tid (.error e) t).1 = ⟨500, .internalError⟩ :=
  ⟨by simp [hello, hd], by simp [slow, hx], by simp [sometimes_errors, hr], rfl⟩

theorem C9_nonnumeric_params_witness :
    hello (some "abc") = .error "ValueError" ∧
    slow (some "abc") none ([] : Cache) = .error "ValueError" ∧
    sometimes_errors (some "abc") 0 = .error "ValueError" :=
  ⟨(C9_nonnumeric_params "abc" "abc" "abc" (by decide) (by decide) (by decide)
      none [] 0 cfgW noFailures reqW 0 0 telemW "ValueError").1,
   (C9_nonnumeric_params "abc" "abc" "abc" (by decide) (by decide) (by decide)
      none [] 0 cfgW noFailures reqW 0 0 telemW "ValueError").2.1,
   (C9_nonnumeric_params "abc" "abc" "abc" (by decide) (by decide) (by decide)
      none [] 0 cfgW noFailures reqW 0 0 telemW "ValueError").2.2.1⟩

/-- C10: the `/slow` cache flag is true exactly when the `cache` query
parameter is the string `"1"`; values such as `"true"`, `"01"` or `"yes"`
select the uncached path and are reported as `cache: false` in the body. -/
theorem C10_cache_flag (cp : Option String) (c : Cache) :
    (cacheFlagOf cp = true ↔ cp = some "1") ∧
    cacheFlagOf (some "true") = false ∧
    cacheFlagOf (some "01") = false ∧
    cacheFlagOf (some "yes") = false ∧
    slow none (some "true") c
      = .ok ⟨⟨200, .slowBody (expensive_compute_uncached 7) false⟩, ["slow_work"], c⟩ := by
  refine ⟨?_, rfl, rfl, rfl, ?_⟩
  · cases cp with
    | none => simp [cacheFlagOf]
    | some s => simp [cacheFlagOf]
  · have h7 : pyParseInt "7" = some 7 := by
      simp [pyParseInt, digitsToNat, natOfDigits]
    simp [slow, h7, cacheFlagOf]

/-- C6 counterexample: a request that completes normally (the 200 response
is delivered to the caller) while the counter-increment step of the
completion logic raises produces zero structured log records, refuting
"every completed request produces exactly one structured log record". -/
theorem C6_counterexample :
    (full_dispatch cfgW failCounterOracle reqW 1 0 (.ok ⟨200, .okBody⟩) telemW).1
      = ⟨200, .okBody⟩ ∧
    (full_dispatch cfgW failCounterOracle reqW 1 0 (.ok ⟨200, .okBody⟩) telemW).2.logs
      = [] :=
  ⟨rfl, rfl⟩

/-- C6 (amended): for every request the completion hook runs exactly once,
regardless of success or failure of the route handler and of the telemetry
steps; and provided no completion step raises, the request produces exactly
one structured log record whose path, method and status fields match the
request's path and method and the delivered response's status code. -/
theorem C6_exactly_once (cfg : Config) (req : ReqCtx) (now : ℚ) (tid : Nat)
    (hres : Except String Response) (t : Telemetry) :
    (∀ o : FailureOracle,
      (full_dispatch cfg o req now tid hres t).2.afterRuns = t.afterRuns + 1) ∧
    (full_dispatch cfg noFailures req now tid hres t).2.logs =
      t.logs ++ [⟨"request", cfg.service, cfg.env, req.path, req.method,
        (full_dispatch cfg noFailures req now tid hres t).1.status,
        after_dur_ms req.startTime now, pyHex tid⟩] := by
  constructor
  · intro o
    cases hres with
    | ok r =>
      simp only [full_dispatch, _after, tryCompletion]
      split_ifs <;> rfl
    | error e =>
      simp only [full_dispatch, _after, tryCompletion]
      split_ifs <;> rfl
  · cases hres with
    | ok r => rfl
    | error e => rfl

/-- C8 counterexample: the captured timestamp is the wall clock, which the
code does not force to be monotonic; when the completion reading lies
before the start reading the reported latency is negative (start 1 s, end
0 s gives −1000 ms), refuting "never negative" — and the value is the
truncation toward zero, not the floor: for an elapsed time of −1/2 ms the
code reports 0 while the floor is −1. -/
theorem C8_counterexample :
    after_dur_ms 1 0 = -1000 ∧
    after_dur_ms 1 0 < 0 ∧
    after_dur_ms 0 (-1 / 2000) = 0 ∧
    Int.floor (((-1 : ℚ) / 2000 - 0) * 1000) = -1 := by
  have hceil : ⌈(-1000 : ℚ)⌉ = (-1000 : Int) := by
    rw [show (-1000 : ℚ) = ((-1000 : Int) : ℚ) by norm_num, Int.ceil_intCast]
  refine ⟨?_, ?_, ?_, ?_⟩
  · unfold after_dur_ms pyIntOfRat
    norm_num
    exact hceil
  · unfold after_dur_ms pyIntOfRat
    norm_num
    rw [hceil]
    norm_num
  · unfold after_dur_ms pyIntOfRat
    norm_num
  · norm_num

/-- C8 (amended): the middleware stores a wall-clock reading at request
start (monotonicity is not guaranteed by the code); the reported latency is
the elapsed duration in milliseconds truncated toward zero, and whenever
the completion reading is at least the start reading it equals the floored
elapsed milliseconds and is nonnegative; that latency value is what the
histogram event and the log record carry. -/
theorem C8_latency (start now : ℚ) (h : start ≤ now) :
    after_dur_ms start now = ⌊(now - start) * 1000⌋ ∧
    0 ≤ after_dur_ms start now ∧
    ∀ (cfg : Config) (req : ReqCtx) (resp : Response) (tid : Nat) (t : Telemetry),
      req.startTime = start →
      (tryCompletion cfg noFailures req resp now tid t).histograms
        = t.histograms ++ [⟨req.path, req.method, after_dur_ms start now⟩] ∧
      (tryCompletion cfg noFailures req resp now tid t).logs
        = t.logs ++ [⟨"request", cfg.service, cfg.env, req.path, req.method,
            resp.status, after_dur_ms start now, pyHex tid⟩] := by
  have hq : (0 : ℚ) ≤ (now - start) * 1000 :=
    mul_nonneg (sub_nonneg.mpr h) (by norm_num)
  refine ⟨?_, ?_, ?_⟩
  · unfold after_dur_ms pyIntOfRat
    rw [if_pos hq]
  · unfold after_dur_ms pyIntOfRat
    rw [if_pos hq]
    exact Int.le_floor.mpr (by exact_mod_cast hq)
  · intro cfg req resp tid t hst
    subst hst
    exact ⟨rfl, rfl⟩

theorem C8_latency_witness :
    after_dur_ms 0 1 = ⌊((1 : ℚ) - 0) * 1000⌋ ∧
    0 ≤ after_dur_ms 0 1 ∧
    (tryCompletion cfgW noFailures reqW ⟨200, .okBody⟩ 1 0 telemW).histograms
      = telemW.histograms ++ [⟨reqW.path, reqW.method, after_dur_ms 0 1⟩] :=
  ⟨(C8_latency 0 1 (by norm_num)).1, (C8_latency 0 1 (by norm_num)).2.1,
   ((C8_latency 0 1 (by norm_num)).2.2 cfgW reqW ⟨200, .okBody⟩ 0 telemW rfl).1⟩

end ObsLab
